import Mathlib

/-!
Verification of the Infisical CLI secrets command core
(`cli/packages/cmd/secrets.go`): the reconciliation engine behind
`secrets set`, name resolution for `secrets delete` and `secrets get`,
and the tag-grouping template generator behind
`secrets generate-example-env`.

Strings are modelled as `List Char` (the Go code only manipulates ASCII
byte strings in the paths verified here).  External collaborators
(HTTP transport, terminal rendering, the symmetric cipher) are kept
abstract: the cipher is a function parameter, and network calls are
recorded as events in an explicit trace instead of being performed.
-/

/-- Strings as lists of characters. -/
abbrev Str := List Char

/-- `strings.ToUpper` restricted to ASCII, as used on secret keys. -/
def toUpperStr (s : Str) : Str := s.map Char.toUpper

/-- `strings.SplitN(arg, "=", 2)`: split at the first `=` into at most
two pieces; a string with no `=` yields a single-element slice. -/
def splitN2 : Str → List Str
  | [] => [[]]
  | c :: rest =>
    if c = '=' then [[], rest]
    else
      match splitN2 rest with
      | [] => [[c]]
      | k :: t => (c :: k) :: t

/-- `strings.Join(l, sep)`. -/
def joinSep (sep : Str) : List Str → Str
  | [] => []
  | [x] => x
  | x :: y :: xs => x ++ sep ++ joinSep sep (y :: xs)

/-- `strings.Split(s, sep)` for a one-character separator (used with
`"\n"` by `addHash`). -/
def splitOn1 (sep : Char) : Str → List Str
  | [] => [[]]
  | c :: rest =>
    if c = sep then [] :: splitOn1 sep rest
    else
      match splitOn1 sep rest with
      | [] => [[c]]
      | h :: t => (c :: h) :: t

/-- `strings.TrimSpace`. -/
def trimSpace (s : Str) : Str :=
  ((s.dropWhile Char.isWhitespace).reverse.dropWhile Char.isWhitespace).reverse

/-- Hexadecimal digit characters, lowercase, as produced by Go's
`fmt.Sprintf("%x", ...)`. -/
def hexDigit (n : Nat) : Char :=
  if n < 10 then Char.ofNat (48 + n) else Char.ofNat (87 + n)

/-- Fixed-width big-endian hexadecimal rendering of a natural number. -/
def natToHexPad (w : Nat) (n : Nat) : Str :=
  (List.range w).reverse.map (fun i => hexDigit ((n / 16 ^ i) % 16))

/-- Modelled from the spec: `fmt.Sprintf("%x", sha256.Sum256(...))`.
The SHA-256 implementation lives in the Go standard library and is not
part of this repository's sources; per §4.2 of the spec it is a
fixed-size (256-bit, 64 hex characters) deterministic digest of the
plaintext with no per-call salt.  It is modelled here as a concrete
deterministic rolling digest reduced modulo `2^256` and hex-encoded to
exactly 64 characters; its internals are irrelevant to every claim. -/
def sha256Hex (s : Str) : Str :=
  natToHexPad 64 (s.foldl (fun a c => (a * 131 + c.toNat) % 2 ^ 256) 5381)

/-- Failure modes of a command invocation: a Go runtime panic, or a
clean abort through `util.PrintMessageAndExit`. -/
inductive Fail where
  | paniced : Fail
  | exited (msg : Str) : Fail
deriving DecidableEq

deriving instance DecidableEq for Except

/-- A tag attached to a secret (`models.SingleEnvironmentVariable.Tags`
element: `_id`, `name`, `slug`, `workspace`). -/
structure SecretTag where
  id : Str := []
  name : Str := []
  slug : Str := []
  workspace : Str := []
deriving DecidableEq

/-- `models.SingleEnvironmentVariable`: one decrypted remote secret.
The Go field `Type` is modelled as `vtype`. -/
structure SingleEnvironmentVariable where
  id : Str := []
  key : Str := []
  value : Str := []
  vtype : Str := []
  comment : Str := []
  tags : List SecretTag := []
deriving DecidableEq

/-- `api.Secret`: the wire representation of one sealed entry.  Unset
fields keep Go's zero value (the empty string).  The Go field `Type`
is modelled as `secretType`. -/
structure ApiSecret where
  id : Str := []
  secretKeyCiphertext : Str := []
  secretKeyIV : Str := []
  secretKeyTag : Str := []
  secretKeyHash : Str := []
  secretValueCiphertext : Str := []
  secretValueIV : Str := []
  secretValueTag : Str := []
  secretValueHash : Str := []
  secretType : Str := []
deriving DecidableEq

/-- The output of `crypto.EncryptSymmetric` after each component has
been base64-encoded (the cipher and the base64 encoder are external
collaborators; a run's cipher is passed in as a function). -/
structure SymmetricallyEncryptedData where
  cipherText : Str := []
  nonce : Str := []
  authTag : Str := []
deriving DecidableEq

/-- One audit row of `secrets set` (`SecretSetOperation` in the source). -/
structure SecretSetOperation where
  secretKey : Str
  secretValue : Str
  secretOperation : Str
deriving DecidableEq

/-- The three operation strings logged by `secrets set`. -/
def opCreated : Str := ("SECRET CREATED").toList

/-- Operation string for a modified secret. -/
def opModified : Str := ("SECRET VALUE MODIFIED").toList

/-- Operation string for an unchanged secret. -/
def opUnchanged : Str := ("SECRET VALUE UNCHANGED").toList

/-- `util.SECRET_TYPE_SHARED`. -/
def sharedType : Str := ("shared").toList

/-- Exit message for an empty key or value. -/
def emptyKeyValueMsg : Str :=
  ("ensure that each secret has a none empty key and value. Modify the input and try again").toList

/-- Exit message for a key starting with a digit. -/
def numericKeyMsg : Str :=
  ("keys of secrets cannot start with a number. Modify the key name(s) and try again").toList

/-- Observable side effects of a run: hashing and encryption of a
plaintext, and the batched network calls. -/
inductive Event where
  | hashed (plaintext : Str) : Event
  | encrypted (plaintext : Str) : Event
  | netCreate (batch : List ApiSecret) : Event
  | netModify (batch : List ApiSecret) : Event
  | netDelete (ids : List Str) : Event
deriving DecidableEq

/-- True exactly on network-call events. -/
def isNetEvent : Event → Bool
  | Event.netCreate _ => true
  | Event.netModify _ => true
  | Event.netDelete _ => true
  | _ => false

/-- `getSecretsByKeys`: builds the name → secret map.  The stored key
is used verbatim as the map key; a later duplicate overwrites an
earlier one. -/
def getSecretsByKeys (secrets : List SingleEnvironmentVariable) :
    Str → Option SingleEnvironmentVariable :=
  secrets.foldl (fun m s => fun k => if k = s.key then some s else m k) (fun _ => none)

/-- Mutable state of the `secrets set` loop: the two batches, the
operations log, and the trace of observable effects. -/
structure SetState where
  toCreate : List ApiSecret := []
  toModify : List ApiSecret := []
  operations : List SecretSetOperation := []
  trace : List Event := []
deriving DecidableEq

/-- The body of the `for _, arg := range args` loop of `secretsSetCmd`
(lines 148-221): split the argument on `=`, validate, hash and encrypt
key and value, then classify against the remote map.  Out-of-range
slice indexing is modelled as `Fail.paniced`,
`util.PrintMessageAndExit` as `Fail.exited`. -/
def processSecretSetArg (enc : Str → SymmetricallyEncryptedData)
    (secretByKey : Str → Option SingleEnvironmentVariable)
    (st : SetState) (arg : Str) : Except Fail SetState :=
  match splitN2 arg with
  | [] => Except.error Fail.paniced
  | k0 :: rest =>
    if k0 = [] then Except.error (Fail.exited emptyKeyValueMsg)
    else
      match rest with
      | [] => Except.error Fail.paniced
      | v0 :: _ =>
        if v0 = [] then Except.error (Fail.exited emptyKeyValueMsg)
        else if (k0.headD ' ').isDigit then Except.error (Fail.exited numericKeyMsg)
        else
          let key := toUpperStr k0
          let value := v0
          let hashedKey := sha256Hex key
          let encryptedKey := enc key
          let hashedValue := sha256Hex value
          let encryptedValue := enc value
          let st1 := { st with
            trace := st.trace ++
              [Event.hashed key, Event.encrypted key,
               Event.hashed value, Event.encrypted value] }
          match secretByKey key with
          | some existingSecret =>
            let entry : ApiSecret :=
              { id := existingSecret.id
                secretValueCiphertext := encryptedValue.cipherText
                secretValueIV := encryptedValue.nonce
                secretValueTag := encryptedValue.authTag
                secretValueHash := hashedValue }
            if existingSecret.value ≠ value then
              Except.ok { st1 with
                toModify := st1.toModify ++ [entry]
                operations := st1.operations ++ [⟨key, value, opModified⟩] }
            else
              Except.ok { st1 with
                operations := st1.operations ++ [⟨key, value, opUnchanged⟩] }
          | none =>
            let entry : ApiSecret :=
              { secretKeyCiphertext := encryptedKey.cipherText
                secretKeyIV := encryptedKey.nonce
                secretKeyTag := encryptedKey.authTag
                secretKeyHash := hashedKey
                secretValueCiphertext := encryptedValue.cipherText
                secretValueIV := encryptedValue.nonce
                secretValueTag := encryptedValue.authTag
                secretValueHash := hashedValue
                secretType := sharedType }
            Except.ok { st1 with
              toCreate := st1.toCreate ++ [entry]
              operations := st1.operations ++ [⟨key, value, opCreated⟩] }

/-- Runs the argument loop, stopping at the first failure; the state
reached so far is preserved so the trace up to the abort is visible. -/
def runSecretSetArgs (enc : Str → SymmetricallyEncryptedData)
    (secretByKey : Str → Option SingleEnvironmentVariable) :
    SetState → List Str → SetState × Option Fail
  | st, [] => (st, none)
  | st, arg :: rest =>
    match processSecretSetArg enc secretByKey st arg with
    | Except.ok st2 => runSecretSetArgs enc secretByKey st2 rest
    | Except.error f => (st, some f)

/-- `secretsSetCmd` from the point where the remote secret set and the
project key are available: run the loop, then issue the create batch
(if non-empty) and the modify batch (if non-empty). -/
def secretsSetRun (enc : Str → SymmetricallyEncryptedData)
    (remote : List SingleEnvironmentVariable) (args : List Str) :
    SetState × Option Fail :=
  let secretByKey := getSecretsByKeys remote
  match runSecretSetArgs enc secretByKey {} args with
  | (st, some f) => (st, some f)
  | (st, none) =>
    let st1 :=
      if st.toCreate.length > 0 then
        { st with trace := st.trace ++ [Event.netCreate st.toCreate] }
      else st
    let st2 :=
      if st1.toModify.length > 0 then
        { st1 with trace := st1.trace ++ [Event.netModify st1.toModify] }
      else st1
    (st2, none)

/-- The (uppercased key, value) pair of an argument that passes the
per-argument validation of `secretsSetCmd`; `none` when the argument
would abort the command (empty key or value, digit-leading key, or a
panic on a missing `=`). -/
def parseOk (arg : Str) : Option (Str × Str) :=
  match splitN2 arg with
  | [] => none
  | k0 :: rest =>
    if k0 = [] then none
    else
      match rest with
      | [] => none
      | v0 :: _ =>
        if v0 = [] then none
        else if (k0.headD ' ').isDigit then none
        else some (toUpperStr k0, v0)

/-- The validation-exit message an argument would trigger, if any
(panics are not validation errors and yield `none`). -/
def argValidationFailure (arg : Str) : Option Str :=
  match splitN2 arg with
  | [] => none
  | k0 :: rest =>
    if k0 = [] then some emptyKeyValueMsg
    else
      match rest with
      | [] => none
      | v0 :: _ =>
        if v0 = [] then some emptyKeyValueMsg
        else if (k0.headD ' ').isDigit then some numericKeyMsg
        else none

/-- The create-batch entry produced for a new secret. -/
def mkCreateEntry (enc : Str → SymmetricallyEncryptedData) (k v : Str) : ApiSecret :=
  { secretKeyCiphertext := (enc k).cipherText
    secretKeyIV := (enc k).nonce
    secretKeyTag := (enc k).authTag
    secretKeyHash := sha256Hex k
    secretValueCiphertext := (enc v).cipherText
    secretValueIV := (enc v).nonce
    secretValueTag := (enc v).authTag
    secretValueHash := sha256Hex v
    secretType := sharedType }

/-- The modify-batch entry produced for an existing secret: the remote
entry's id with freshly sealed value fields. -/
def mkModifyEntry (enc : Str → SymmetricallyEncryptedData)
    (ex : SingleEnvironmentVariable) (v : Str) : ApiSecret :=
  { id := ex.id
    secretValueCiphertext := (enc v).cipherText
    secretValueIV := (enc v).nonce
    secretValueTag := (enc v).authTag
    secretValueHash := sha256Hex v }

/-- What one argument contributes to the create batch. -/
def createSpec (enc : Str → SymmetricallyEncryptedData)
    (m : Str → Option SingleEnvironmentVariable) (arg : Str) : Option ApiSecret :=
  (parseOk arg).bind fun kv =>
    match m kv.1 with
    | none => some (mkCreateEntry enc kv.1 kv.2)
    | some _ => none

/-- What one argument contributes to the modify batch: only an
existing key whose remote plaintext value differs from the desired
value produces an entry, and that entry keeps the remote id. -/
def modifySpec (enc : Str → SymmetricallyEncryptedData)
    (m : Str → Option SingleEnvironmentVariable) (arg : Str) : Option ApiSecret :=
  (parseOk arg).bind fun kv =>
    match m kv.1 with
    | some ex => if ex.value ≠ kv.2 then some (mkModifyEntry enc ex kv.2) else none
    | none => none

/-- What one argument contributes to the operations log. -/
def opSpec (m : Str → Option SingleEnvironmentVariable) (arg : Str) :
    Option SecretSetOperation :=
  (parseOk arg).map fun kv =>
    match m kv.1 with
    | some ex =>
      if ex.value ≠ kv.2 then ⟨kv.1, kv.2, opModified⟩ else ⟨kv.1, kv.2, opUnchanged⟩
    | none => ⟨kv.1, kv.2, opCreated⟩

/-- The hash/encrypt events one argument contributes to the trace. -/
def argTrace (arg : Str) : List Event :=
  match parseOk arg with
  | some kv =>
    [Event.hashed kv.1, Event.encrypted kv.1, Event.hashed kv.2, Event.encrypted kv.2]
  | none => []

/-- Name-resolution loop of `secretsDeleteCmd` (lines 296-302): each
argument is uppercased and looked up; hits contribute the remote id,
misses are collected as unknown names. -/
def resolveForDeletion (secretByKey : Str → Option SingleEnvironmentVariable)
    (args : List Str) : List Str × List Str :=
  args.foldl
    (fun st a =>
      match secretByKey (toUpperStr a) with
      | some v => (st.1 ++ [v.id], st.2)
      | none => (st.1, st.2 ++ [a]))
    ([], [])

/-- The aggregated message reporting every unknown deletion name. -/
def deleteUnknownMsg (names : List Str) : Str :=
  ("secret name(s) [").toList ++ joinSep (", ").toList names ++
    ("] does not exist in your project. To see which secrets exist run [infisical secrets]").toList

/-- `secretsDeleteCmd` from the point where the remote secret set is
available: resolve all names; if any is unknown, exit reporting all of
them and issue no network call, otherwise issue the single batch
delete. -/
def secretsDeleteRun (remote : List SingleEnvironmentVariable)
    (args : List Str) : List Event × Option Fail :=
  let secretByKey := getSecretsByKeys remote
  let resolved := resolveForDeletion secretByKey args
  if resolved.2.length ≠ 0 then
    ([], some (Fail.exited (deleteUnknownMsg resolved.2)))
  else
    ([Event.netDelete resolved.1], none)

/-- `getSecretsByNames` (lines 329-370) from the point where the
remote secret set is available: the inline map construction is the
same loop as `getSecretsByKeys`; each requested name is uppercased for
the lookup, and a miss yields a placeholder `*not found*` row. -/
def getSecretsByNamesRun (remote : List SingleEnvironmentVariable)
    (args : List Str) : List SingleEnvironmentVariable :=
  let secretsMap := getSecretsByKeys remote
  args.map fun a =>
    match secretsMap (toUpperStr a) with
    | some v => v
    | none =>
      { key := a
        vtype := ("*not found*").toList
        value := ("*not found*").toList }

/-- `CenterString(s, numStars)` (lines 520-527).  `padding` is Go
integer division, which truncates toward zero; Go slice expressions
`stars[:padding]` and `stars[padding:]` panic when `padding` is
negative or exceeds `len(stars)`. -/
def CenterString (s : Str) (numStars : Nat) : Except Fail Str :=
  let stars : Str := List.replicate numStars '*'
  let padding : Int := Int.tdiv ((numStars : Int) - (s.length : Int)) 2
  if padding < 0 ∨ (numStars : Int) < padding then Except.error Fail.paniced
  else
    let p := padding.toNat
    let cenetredTextWithStar : Str :=
      stars.take p ++ [' '] ++ toUpperStr s ++ [' '] ++ stars.drop p
    let hashes : Str := List.replicate (cenetredTextWithStar.length + 2) '#'
    Except.ok (hashes ++ (" \n# ").toList ++ cenetredTextWithStar ++
      (" \n").toList ++ hashes)

/-- `addHash` (lines 529-535): prefix every line with `"# "`. -/
def addHash (input : Str) : Str :=
  joinSep [Char.ofNat 10] ((splitOn1 (Char.ofNat 10) input).map (fun line => ("# ").toList ++ line))

/-- The literal marker `DEFAULT:`. -/
def defaultMarker : Str := ("DEFAULT:").toList

/-- Whether `DEFAULT:` occurs anywhere in the string. -/
def hasMarker : Str → Bool
  | [] => false
  | c :: rest => List.isPrefixOf defaultMarker (c :: rest) || hasMarker rest

/-- Split a string around the last occurrence of `DEFAULT:`, if any.
This models `regexp.MustCompile((?s)(.*)DEFAULT:(.*)).FindStringSubmatch`:
the regexp package uses leftmost-first (Perl-style) matching, so the
greedy first `(.*)` extends to the last occurrence of the marker. -/
def splitLastMarker : Str → Option (Str × Str)
  | [] => none
  | c :: rest =>
    match splitLastMarker rest with
    | some (b, a) => some (c :: b, a)
    | none =>
      if List.isPrefixOf defaultMarker (c :: rest) then
        some ([], List.drop defaultMarker.length (c :: rest))
      else none

/-- The `(comment, defaultValue)` derivation of `generateExampleEnv`
(lines 477-491).  `FindStringSubmatch` with a two-group pattern
returns either no match (the comment is kept, the default value is
empty) or three submatches (text before the last marker, text after);
the `len(match) == 2` branch of the source is unreachable. -/
def parseCommentDefault (comment : Str) : Str × Str :=
  match splitLastMarker comment with
  | none => (comment, [])
  | some (b, a) => (b, a)

/-- One rendered template row (lines 493-499): an optional hash-prefixed
comment block followed by `KEY=defaultValue`. -/
def renderRow (secret : SingleEnvironmentVariable) : Str :=
  let parsed := parseCommentDefault secret.comment
  let comment := parsed.1
  let defaultValue := parsed.2
  if comment ≠ [] then
    trimSpace (addHash comment) ++ (" \n").toList ++
      trimSpace secret.key ++ [Char.ofNat 61] ++ trimSpace defaultValue
  else
    trimSpace secret.key ++ [Char.ofNat 61] ++ trimSpace defaultValue

/-- The slugs of a secret's tags, in their original order. -/
def secretSlugs (s : SingleEnvironmentVariable) : List Str :=
  s.tags.map SecretTag.slug

/-- Ascending lexicographic sort of a string list (`sort.Strings`). -/
def sortStrings (l : List Str) : List Str :=
  List.insertionSort (fun a b => a ≤ b) l

/-- Modelled from the spec: `util.GetHashFromStringList` lives in the
util package, outside these sources.  Per §4.4 of the spec it is a
deterministic, collision-resistant digest of a string list used only
as a grouping key, so digest equality stands for list equality; it is
modelled as the list itself. -/
def GetHashFromStringList (l : List Str) : List Str := l

/-- The grouping key of a tag-slug list: sort the slugs, then digest,
so that the same tag set yields the same key in any order. -/
def tagsHashOfSlugs (slugs : List Str) : List Str :=
  GetHashFromStringList (sortStrings slugs)

/-- The grouping key of one secret (lines 411-418 and 426-434). -/
def secretTagsHash (s : SingleEnvironmentVariable) : List Str :=
  tagsHashOfSlugs (secretSlugs s)

/-- `TagsAndSecrets` (lines 395-403). -/
structure TagsAndSecrets where
  secrets : List SingleEnvironmentVariable := []
  tags : List SecretTag := []
deriving DecidableEq

/-- Descending-by-tag-count order used to pre-sort the secrets
(line 406). -/
def tagCountGe (a b : SingleEnvironmentVariable) : Prop :=
  b.tags.length ≤ a.tags.length

instance : DecidableRel tagCountGe := fun a b => Nat.decLe _ _

/-- Ascending-by-key order on secrets (lines 442-444). -/
def keyLe (a b : SingleEnvironmentVariable) : Prop := a.key ≤ b.key

instance : DecidableRel keyLe := fun a b =>
  inferInstanceAs (Decidable (a.key ≤ b.key))

instance : IsTotal SingleEnvironmentVariable keyLe :=
  ⟨fun a b => le_total a.key b.key⟩

instance : IsTrans SingleEnvironmentVariable keyLe :=
  ⟨fun _ _ _ h1 h2 => le_trans h1 h2⟩

/-- Ascending-by-tag-count order on groups (lines 469-471). -/
def groupTagsLe (a b : TagsAndSecrets) : Prop :=
  a.tags.length ≤ b.tags.length

instance : DecidableRel groupTagsLe := fun a b => Nat.decLe _ _

instance : IsTotal TagsAndSecrets groupTagsLe :=
  ⟨fun a b => Nat.le_total _ _⟩

instance : IsTrans TagsAndSecrets groupTagsLe :=
  ⟨fun _ _ _ h1 h2 => Nat.le_trans h1 h2⟩

/-- Pass 1 of the grouping (lines 410-421): count the secrets sharing
each grouping key. -/
def tagsHashCounts (secrets : List SingleEnvironmentVariable) :
    List Str → Nat :=
  secrets.foldl
    (fun m s => fun k => if k = secretTagsHash s then m k + 1 else m k)
    (fun _ => 0)

/-- Association-list lookup for the final grouping map. -/
def lookupGroup (m : List (List Str × TagsAndSecrets)) (k : List Str) :
    Option TagsAndSecrets :=
  match m with
  | [] => none
  | (k2, v) :: rest => if k = k2 then some v else lookupGroup rest k

/-- Association-list update: replace in place, or append a new key.
(Go map iteration order is unspecified; this model fixes first-insertion
order, and every verified property is independent of that order because
the entries are re-sorted before rendering.) -/
def setGroup (m : List (List Str × TagsAndSecrets)) (k : List Str)
    (v : TagsAndSecrets) : List (List Str × TagsAndSecrets) :=
  match m with
  | [] => [(k, v)]
  | (k2, v2) :: rest =>
    if k = k2 then (k2, v) :: rest else (k2, v2) :: setGroup rest k v

/-- Pass 2 of the grouping (lines 425-460): while the key's remaining
count is positive, append the secret to its group (keeping the member
list sorted by key), record the secret's tags as the group's tags, and
decrement the count. -/
def insertSecretIntoGroups
    (st : (List Str → Nat) × List (List Str × TagsAndSecrets))
    (secret : SingleEnvironmentVariable) :
    (List Str → Nat) × List (List Str × TagsAndSecrets) :=
  let tagsHash := secretTagsHash secret
  let occurrence := st.1 tagsHash
  if 0 < occurrence then
    match lookupGroup st.2 tagsHash with
    | some value =>
      let allSecretsForTags :=
        List.insertionSort keyLe (value.secrets ++ [secret])
      (fun k => if k = tagsHash then st.1 k - 1 else st.1 k,
       setGroup st.2 tagsHash ⟨allSecretsForTags, secret.tags⟩)
    | none =>
      (fun k => if k = tagsHash then st.1 k - 1 else st.1 k,
       setGroup st.2 tagsHash ⟨[secret], secret.tags⟩)
  else st

/-- The final grouping map of `generateExampleEnv`. -/
def buildGroups (secrets : List SingleEnvironmentVariable) :
    List (List Str × TagsAndSecrets) :=
  (secrets.foldl insertSecretIntoGroups (tagsHashCounts secrets, [])).2

/-- One emitted group of the template: the representative tags, the
heading banner (absent exactly for the untagged group), the member
secrets in emission order, and their rendered rows. -/
structure RenderedGroup where
  tags : List SecretTag
  heading : Option Str
  secrets : List SingleEnvironmentVariable
  rows : List Str
deriving DecidableEq

/-- Rendering of one group (lines 473-517): build the rows, join the
tag names with ` & `, center the heading, and omit the banner exactly
when the group has no tag names.  `CenterString` is invoked before the
emptiness test, exactly as in the source. -/
def renderGroup (g : TagsAndSecrets) : Except Fail RenderedGroup :=
  let listOfKeyValue := g.secrets.map renderRow
  let listOfTagNames := g.tags.map SecretTag.name
  match CenterString (joinSep (" & ").toList listOfTagNames) 80 with
  | Except.error f => Except.error f
  | Except.ok heading =>
    if listOfTagNames.length = 0 then
      Except.ok ⟨g.tags, none, g.secrets, listOfKeyValue⟩
    else
      Except.ok ⟨g.tags, some heading, g.secrets, listOfKeyValue⟩

/-- Render all groups in order, propagating the first panic. -/
def renderGroups : List TagsAndSecrets → Except Fail (List RenderedGroup)
  | [] => Except.ok []
  | g :: rest =>
    match renderGroup g with
    | Except.error f => Except.error f
    | Except.ok r =>
      match renderGroups rest with
      | Except.error f => Except.error f
      | Except.ok rs => Except.ok (r :: rs)

/-- `generateExampleEnv` from the point where the decrypted remote
secret set is available: pre-sort by descending tag count, group by
the two-pass counting scheme, sort the groups by ascending tag count,
and render each group. -/
def generateExampleEnvRun (secrets0 : List SingleEnvironmentVariable) :
    Except Fail (List RenderedGroup) :=
  let secrets := List.insertionSort tagCountGe secrets0
  let listOfsecretDetails := (buildGroups secrets).map Prod.snd
  let sortedDetails := List.insertionSort groupTagsLe listOfsecretDetails
  renderGroups sortedDetails

/-- The reconciliation outcome of a fully validated `secrets set`
invocation: one logged operation per argument, logged in input order;
every operation carries one of the three kind strings; both batches
are the ordered image of their classified arguments; batch sizes match
the operation counts; and each argument's kind determines which batch
(if any) holds its entry. -/
def SetRunOutcomeSpec (enc : Str → SymmetricallyEncryptedData)
    (remote : List SingleEnvironmentVariable) (args : List Str)
    (st : SetState) : Prop :=
  st.operations.length = args.length ∧
  st.operations.map (fun op => (op.secretKey, op.secretValue)) =
    args.filterMap parseOk ∧
  (∀ op ∈ st.operations, op.secretOperation = opCreated ∨
    op.secretOperation = opModified ∨ op.secretOperation = opUnchanged) ∧
  st.toCreate = args.filterMap (createSpec enc (getSecretsByKeys remote)) ∧
  st.toModify = args.filterMap (modifySpec enc (getSecretsByKeys remote)) ∧
  st.toCreate.length = (st.operations.filter
    (fun op => op.secretOperation == opCreated)).length ∧
  st.toModify.length = (st.operations.filter
    (fun op => op.secretOperation == opModified)).length ∧
  (∀ a ∈ args, ∀ op, opSpec (getSecretsByKeys remote) a = some op →
    (op.secretOperation = opCreated →
      ∃ e, createSpec enc (getSecretsByKeys remote) a = some e ∧
        e ∈ st.toCreate ∧ modifySpec enc (getSecretsByKeys remote) a = none) ∧
    (op.secretOperation = opModified →
      ∃ e, modifySpec enc (getSecretsByKeys remote) a = some e ∧
        e ∈ st.toModify ∧ createSpec enc (getSecretsByKeys remote) a = none) ∧
    (op.secretOperation = opUnchanged →
      createSpec enc (getSecretsByKeys remote) a = none ∧
      modifySpec enc (getSecretsByKeys remote) a = none))

/-- The modify-or-unchanged decision for entries whose key already
exists remotely: decided by comparing the remote plaintext value with
the desired plaintext value; a differing value produces a modify entry
that keeps the remote id and carries freshly sealed value fields, an
equal value produces no batch entry at all. -/
def SetModifyOutcomeSpec (enc : Str → SymmetricallyEncryptedData)
    (remote : List SingleEnvironmentVariable) (args : List Str)
    (st : SetState) : Prop :=
  st.toModify = args.filterMap (modifySpec enc (getSecretsByKeys remote)) ∧
  st.operations = args.filterMap (opSpec (getSecretsByKeys remote)) ∧
  (∀ a ∈ args, ∀ k v, parseOk a = some (k, v) →
    ∀ ex, getSecretsByKeys remote k = some ex →
      (ex.value ≠ v →
        modifySpec enc (getSecretsByKeys remote) a = some
          { id := ex.id
            secretValueCiphertext := (enc v).cipherText
            secretValueIV := (enc v).nonce
            secretValueTag := (enc v).authTag
            secretValueHash := sha256Hex v } ∧
        opSpec (getSecretsByKeys remote) a = some ⟨k, v, opModified⟩) ∧
      (ex.value = v →
        modifySpec enc (getSecretsByKeys remote) a = none ∧
        createSpec enc (getSecretsByKeys remote) a = none ∧
        opSpec (getSecretsByKeys remote) a = some ⟨k, v, opUnchanged⟩))

/-- Relation between a grouped collection and its rendering: the
rendered group keeps the representative tags and member list, derives
its rows per member, omits the heading banner exactly for the
untagged group, and otherwise carries the centered banner of the tag
names joined by " & ". -/
def RenderRel (g : TagsAndSecrets) (r : RenderedGroup) : Prop :=
  r.tags = g.tags ∧ r.secrets = g.secrets ∧
  r.rows = g.secrets.map renderRow ∧
  (r.heading = none ↔ g.tags = []) ∧
  (g.tags ≠ [] → ∃ h,
    CenterString (joinSep (" & ").toList (g.tags.map SecretTag.name)) 80 =
      Except.ok h ∧ r.heading = some h)

/-- The promised shape of the emitted template groups: non-decreasing
tag-set cardinality; a heading banner exactly for the tagged groups,
built by centering the tag names joined by " & "; members sorted
ascending by key with one rendered row each; and the untagged group,
when present, emitted first. -/
def GeneratedGroupsSpec (gs : List RenderedGroup) : Prop :=
  List.Pairwise (fun a b => a.tags.length ≤ b.tags.length) gs ∧
  (∀ g ∈ gs,
    (g.heading = none ↔ g.tags = []) ∧
    List.Sorted keyLe g.secrets ∧
    g.rows = g.secrets.map renderRow ∧
    (g.tags ≠ [] → ∃ h,
      CenterString (joinSep (" & ").toList (g.tags.map SecretTag.name)) 80 =
        Except.ok h ∧ g.heading = some h)) ∧
  (∀ g ∈ gs, g.tags = [] → ∀ g0, gs.head? = some g0 → g0.tags = [])

/-- A cipher collaborator for concrete runs: every component empty
(the claims never inspect ciphertext). -/
def encZero : Str → SymmetricallyEncryptedData := fun _ => {}

/-- Remote set with one secret `A = x`. -/
def exRemoteSet : List SingleEnvironmentVariable :=
  [{ key := ("A").toList, value := ("x").toList, id := ("idA").toList }]

/-- Arguments exercising all three operation kinds against
`exRemoteSet`. -/
def exSetArgs : List Str :=
  [("a=x").toList, ("a=y").toList, ("b=z").toList]

/-- Remote set whose stored key is lowercase. -/
def exRemoteLower : List SingleEnvironmentVariable :=
  [{ key := ("db_url").toList, value := ("x").toList, id := ("id1").toList }]

/-- Remote set whose stored key is uppercase. -/
def exRemoteUpper : List SingleEnvironmentVariable :=
  [{ key := ("DB_URL").toList, value := ("x").toList, id := ("id1").toList }]

/-- Remote set with uppercase keys `A` and `B`. -/
def exRemoteAB : List SingleEnvironmentVariable :=
  [{ key := ("A").toList, id := ("idA").toList },
   { key := ("B").toList, id := ("idB").toList }]

/-- Remote set with one lowercase stored key `a`. -/
def exRemoteLowerA : List SingleEnvironmentVariable :=
  [{ key := ("a").toList, id := ("ia").toList }]

/-- The tag of the template-grouping example. -/
def tagT1 : SecretTag := { name := ("t1").toList, slug := ("t1").toList }

/-- The template-grouping example: X untagged, Y and Z tagged t1. -/
def exTemplateSecrets : List SingleEnvironmentVariable :=
  [{ key := ("X").toList },
   { key := ("Y").toList, tags := [tagT1] },
   { key := ("Z").toList, tags := [tagT1] }]

/-- The groups the template example produces. -/
def exTemplateGroups : List RenderedGroup :=
  ((generateExampleEnvRun exTemplateSecrets).toOption).getD []

/-! ## General helper lemmas -/

/-- `filterMap` over a cons, expressed through `Option.toList`. -/
theorem filterMap_cons_toList {α β : Type} (f : α → Option β) (a : α) (l : List α) :
    List.filterMap f (a :: l) = (f a).toList ++ List.filterMap f l := by
  cases h : f a <;> simp [List.filterMap_cons, h]

/-- A string with no `=` splits into a single-element slice. -/
theorem splitN2_no_eq (arg : Str) (h : '=' ∉ arg) : splitN2 arg = [arg] := by
  induction arg with
  | nil => rfl
  | cons c rest ih =>
    have hc : ¬ c = '=' := fun hcc => h (hcc ▸ List.mem_cons_self c rest)
    have hr : splitN2 rest = [rest] := ih (fun hm => h (List.mem_cons_of_mem c hm))
    simp [splitN2, hc, hr]

/-! ## C7: hash determinism and tag-order independence -/

/-- C7: the plaintext digest has a fixed size of 64 hex characters and
depends only on the plaintext (the model takes no per-call salt), and
the tag-set grouping key is invariant under reordering of the slug
list, because the slugs are sorted before hashing. -/
theorem hash_fixed_size_and_tag_order_free :
    (∀ p : Str, (sha256Hex p).length = 64) ∧
    (∀ l1 l2 : List Str, l1.Perm l2 → tagsHashOfSlugs l1 = tagsHashOfSlugs l2) := by
  constructor
  · intro p
    simp [sha256Hex, natToHexPad]
  · intro l1 l2 hperm
    have hs1 : List.Sorted (fun a b : Str => a ≤ b) (sortStrings l1) :=
      List.sorted_insertionSort _ l1
    have hs2 : List.Sorted (fun a b : Str => a ≤ b) (sortStrings l2) :=
      List.sorted_insertionSort _ l2
    have hp : (sortStrings l1).Perm (sortStrings l2) :=
      (List.perm_insertionSort _ l1).trans
        (hperm.trans (List.perm_insertionSort _ l2).symm)
    have : sortStrings l1 = sortStrings l2 :=
      List.eq_of_perm_of_sorted hp hs1 hs2
    simp [tagsHashOfSlugs, GetHashFromStringList, this]

/-- C7 witness at concrete inputs. -/
theorem hash_fixed_size_and_tag_order_free_witness :
    (sha256Hex ("secret").toList).length = 64 ∧
    tagsHashOfSlugs [("a").toList, ("b").toList] =
      tagsHashOfSlugs [("b").toList, ("a").toList] :=
  ⟨hash_fixed_size_and_tag_order_free.1 _,
   hash_fixed_size_and_tag_order_free.2 _ _ (List.Perm.swap _ _ _)⟩

/-! ## C10: CenterString is partial for long headings -/

/-- Truncating division of an integer at most `-2` by two is negative. -/
theorem tdiv_two_neg_of_negSucc (m : Nat) (h : 1 ≤ m) :
    Int.tdiv (Int.negSucc m) 2 < 0 := by
  show -(((m + 1) / 2 : Nat) : Int) < 0
  have h2 : 1 ≤ (m + 1) / 2 := by omega
  omega

/-- C10: for any heading of length at least 82, the computed padding
`(80 - len(s)) / 2` is negative and the slice `stars[:padding]`
panics, so `CenterString s 80` fails instead of producing a banner;
consequently `generateExampleEnv` crashes on a tag set whose joined
names exceed the banner width (shown at a concrete such input). -/
theorem CenterString_partial_on_long_heading :
    (∀ s : Str, 82 ≤ s.length →
      Int.tdiv ((80 : Int) - (s.length : Int)) 2 < 0 ∧
      CenterString s 80 = Except.error Fail.paniced) ∧
    generateExampleEnvRun
      [{ key := ("K").toList,
         tags := [{ name := List.replicate 82 'A', slug := ("t").toList }] }] =
      Except.error Fail.paniced := by
  constructor
  · intro s hlen
    have hrw : (80 : Int) - (s.length : Int) = Int.negSucc (s.length - 81) := by
      rw [Int.negSucc_eq]; omega
    have hneg : Int.tdiv ((80 : Int) - (s.length : Int)) 2 < 0 := by
      rw [hrw]; exact tdiv_two_neg_of_negSucc _ (by omega)
    refine ⟨hneg, ?_⟩
    have hneg2 : Int.tdiv (((80 : Nat) : Int) - (s.length : Int)) 2 < 0 := by
      exact_mod_cast hneg
    simp only [CenterString]
    rw [if_pos (Or.inl hneg2)]
  · decide

/-- C10 witness at a concrete 82-character heading. -/
theorem CenterString_partial_on_long_heading_witness :
    82 ≤ (List.replicate 82 'A').length ∧
    (Int.tdiv ((80 : Int) - ((List.replicate 82 'A').length : Int)) 2 < 0 ∧
      CenterString (List.replicate 82 'A') 80 = Except.error Fail.paniced) :=
  ⟨by decide, CenterString_partial_on_long_heading.1 _ (by decide)⟩

/-! ## C8: comment / default-value parsing -/

/-- The marker split fails exactly when the marker does not occur. -/
theorem splitLastMarker_eq_none_iff (s : Str) :
    splitLastMarker s = none ↔ hasMarker s = false := by
  induction s with
  | nil => simp [splitLastMarker, hasMarker]
  | cons c rest ih =>
    cases hr : splitLastMarker rest with
    | some p =>
      have : hasMarker rest = true := by
        by_contra hfalse
        have : splitLastMarker rest = none := ih.mpr (by simpa using hfalse)
        simp [this] at hr
      simp [splitLastMarker, hasMarker, hr, this]
    | none =>
      have hrest : hasMarker rest = false := ih.mp hr
      by_cases hp : List.isPrefixOf defaultMarker (c :: rest)
      · simp [splitLastMarker, hasMarker, hr, hrest, hp]
      · simp [splitLastMarker, hasMarker, hr, hrest, hp]

/-- A successful marker split reassembles the original string. -/
theorem splitLastMarker_append (s : Str) : ∀ b a : Str,
    splitLastMarker s = some (b, a) → s = b ++ defaultMarker ++ a := by
  induction s with
  | nil => intro b a h; simp [splitLastMarker] at h
  | cons c rest ih =>
    intro b a h
    cases hr : splitLastMarker rest with
    | some p =>
      obtain ⟨b2, a2⟩ := p
      simp only [splitLastMarker, hr, Option.some.injEq, Prod.mk.injEq] at h
      obtain ⟨hb, ha⟩ := h
      subst hb; subst ha
      rw [ih b2 a2 hr]
      simp
    | none =>
      simp only [splitLastMarker, hr] at h
      by_cases hp : List.isPrefixOf defaultMarker (c :: rest)
      · rw [if_pos hp, Option.some.injEq, Prod.mk.injEq] at h
        obtain ⟨hb, ha⟩ := h
        obtain ⟨t, ht⟩ := List.isPrefixOf_iff_prefix.mp hp
        have hd : List.drop defaultMarker.length (c :: rest) = t := by
          rw [← ht]; exact List.drop_left _ _
        rw [← hb, ← ha, hd, ← ht]
        simp
      · rw [if_neg hp] at h
        exact absurd h (by simp)

/-- If the marker occurs in a suffix, it occurs in the string. -/
theorem hasMarker_of_drop (n : Nat) (s : Str)
    (h : hasMarker (List.drop n s) = true) : hasMarker s = true := by
  induction n generalizing s with
  | zero => simpa using h
  | succ k ih =>
    cases s with
    | nil => simpa [hasMarker] using h
    | cons c rest =>
      have : hasMarker rest = true := ih rest (by simpa using h)
      simp [hasMarker, this]

/-- The split is at the last occurrence: no marker occurs after it. -/
theorem splitLastMarker_after_clean (s : Str) : ∀ b a : Str,
    splitLastMarker s = some (b, a) → hasMarker a = false := by
  induction s with
  | nil => intro b a h; simp [splitLastMarker] at h
  | cons c rest ih =>
    intro b a h
    cases hr : splitLastMarker rest with
    | some p =>
      obtain ⟨b2, a2⟩ := p
      simp only [splitLastMarker, hr, Option.some.injEq, Prod.mk.injEq] at h
      obtain ⟨hb, ha⟩ := h
      subst ha
      exact ih b2 a2 hr
    | none =>
      simp only [splitLastMarker, hr] at h
      by_cases hp : List.isPrefixOf defaultMarker (c :: rest)
      · rw [if_pos hp, Option.some.injEq, Prod.mk.injEq] at h
        obtain ⟨hb, ha⟩ := h
        have hrest : hasMarker rest = false := (splitLastMarker_eq_none_iff rest).mp hr
        by_contra hcontra
        have ha2 : hasMarker a = true := by simpa using hcontra
        have hdrop : List.drop defaultMarker.length (c :: rest) = List.drop 7 rest := rfl
        rw [← ha, hdrop] at ha2
        exact absurd (hasMarker_of_drop _ _ ha2) (by simp [hrest])
      · rw [if_neg hp] at h
        exact absurd h (by simp)

/-- C8 counterexample: on the spec's own example the comment produced
by the split keeps its trailing newline; it is `"Database URL\n"`, not
`"Database URL"` as the claim states (the renderer trims it only when
the row is printed). -/
theorem parseComment_newline_counterexample :
    parseCommentDefault ("Database URL\nDEFAULT:postgres://localhost").toList =
      (("Database URL\n").toList, ("postgres://localhost").toList) ∧
    ("Database URL\n").toList ≠ ("Database URL").toList := by
  constructor
  · decide
  · decide

/-- C8 (amended): splitting a comment on the literal marker
`DEFAULT:` yields the comment unchanged with an empty default when the
marker is absent; otherwise the text before the (last) marker becomes
the comment — empty when nothing precedes the marker — and the text
after it becomes the default value, with no marker left in the default
value.  On the example comment the produced comment keeps its trailing
newline: it is `"Database URL\n"`. -/
theorem parseComment_marker_split :
    (∀ s : Str, hasMarker s = false → parseCommentDefault s = (s, [])) ∧
    (∀ s b a : Str, splitLastMarker s = some (b, a) →
      parseCommentDefault s = (b, a) ∧ s = b ++ defaultMarker ++ a ∧
        hasMarker a = false) ∧
    parseCommentDefault ("Database URL\nDEFAULT:postgres://localhost").toList =
      (("Database URL\n").toList, ("postgres://localhost").toList) := by
  refine ⟨?_, ?_, by decide⟩
  · intro s hs
    have : splitLastMarker s = none := (splitLastMarker_eq_none_iff s).mpr hs
    simp [parseCommentDefault, this]
  · intro s b a h
    exact ⟨by simp [parseCommentDefault, h],
      splitLastMarker_append s b a h, splitLastMarker_after_clean s b a h⟩

/-- C8 witness: both branches of the amended statement at concrete
comments. -/
theorem parseComment_marker_split_witness :
    (hasMarker ("just a comment").toList = false ∧
      parseCommentDefault ("just a comment").toList = (("just a comment").toList, [])) ∧
    (splitLastMarker ("DEFAULT:v").toList = some ([], ("v").toList) ∧
      (parseCommentDefault ("DEFAULT:v").toList = ([], ("v").toList) ∧
        ("DEFAULT:v").toList = [] ++ defaultMarker ++ ("v").toList ∧
        hasMarker ("v").toList = false)) :=
  ⟨⟨by decide, parseComment_marker_split.1 _ (by decide)⟩,
   ⟨by decide, parseComment_marker_split.2.1 _ _ _ (by decide)⟩⟩

/-! ## The `secrets set` loop characterization -/

/-- One valid iteration appends exactly the per-argument contributions
described by `createSpec`, `modifySpec`, `opSpec` and `argTrace`. -/
theorem processSecretSetArg_ok_char (enc : Str → SymmetricallyEncryptedData)
    (m : Str → Option SingleEnvironmentVariable) (st : SetState) (arg : Str)
    (k v : Str) (h : parseOk arg = some (k, v)) :
    processSecretSetArg enc m st arg = Except.ok
      { toCreate := st.toCreate ++ (createSpec enc m arg).toList
        toModify := st.toModify ++ (modifySpec enc m arg).toList
        operations := st.operations ++ (opSpec m arg).toList
        trace := st.trace ++ argTrace arg } := by
  unfold createSpec modifySpec opSpec argTrace
  rw [h]
  unfold parseOk at h
  cases hs : splitN2 arg with
  | nil => rw [hs] at h; simp at h
  | cons k0 rest =>
    rw [hs] at h
    by_cases hk : k0 = []
    · simp [hk] at h
    · cases rest with
      | nil => simp [hk] at h
      | cons v0 rest2 =>
        by_cases hv : v0 = []
        · simp [hk, hv] at h
        · by_cases hd : (k0.headD ' ').isDigit
          · have hd2 : ((k0.head?).getD ' ').isDigit = true := by
              simpa [List.headD_eq_head?_getD] using hd
            simp [hk, hv, hd2] at h
          · have hd2 : ((k0.head?).getD ' ').isDigit = false := by
              simpa [List.headD_eq_head?_getD] using hd
            simp only [List.headD_eq_head?_getD, hd2, Bool.false_eq_true,
              if_false, if_neg hk, if_neg hv, Option.some.injEq, Prod.mk.injEq] at h
            obtain ⟨hkey, hval⟩ := h
            unfold processSecretSetArg
            rw [hs]
            simp only [List.headD_eq_head?_getD, hd2, if_neg hk, if_neg hv,
              Bool.false_eq_true, if_false]
            subst hkey; subst hval
            cases hm : m (toUpperStr k0) with
            | some ex =>
              by_cases hne : ex.value ≠ v0
              · simp [hm, hne, mkModifyEntry]
              · have heq : ex.value = v0 := not_ne_iff.mp hne
                simp [hm, heq, mkModifyEntry]
            | none =>
              simp [hm, mkCreateEntry]

/-- A successful iteration implies the argument passed validation. -/
theorem processSecretSetArg_ok_parse (enc : Str → SymmetricallyEncryptedData)
    (m : Str → Option SingleEnvironmentVariable) (st : SetState) (arg : Str)
    (st2 : SetState) (h : processSecretSetArg enc m st arg = Except.ok st2) :
    (parseOk arg).isSome := by
  unfold processSecretSetArg at h
  unfold parseOk
  cases hs : splitN2 arg with
  | nil => rw [hs] at h; simp at h
  | cons k0 rest =>
    rw [hs] at h
    by_cases hk : k0 = []
    · simp [hk] at h
    · cases rest with
      | nil => simp [hk] at h
      | cons v0 rest2 =>
        by_cases hv : v0 = []
        · simp [hk, hv] at h
        · by_cases hd : (k0.headD ' ').isDigit
          · have hd2 : ((k0.head?).getD ' ').isDigit = true := by
              simpa [List.headD_eq_head?_getD] using hd
            simp [hk, hv, hd2] at h
          · have hd2 : ((k0.head?).getD ' ').isDigit = false := by
              simpa [List.headD_eq_head?_getD] using hd
            simp [hk, hv, hd2]

/-- An argument that fails validation aborts the iteration with the
corresponding exit message, whatever the accumulated state. -/
theorem processSecretSetArg_exited (enc : Str → SymmetricallyEncryptedData)
    (m : Str → Option SingleEnvironmentVariable) (st : SetState) (arg : Str)
    (msg : Str) (h : argValidationFailure arg = some msg) :
    processSecretSetArg enc m st arg = Except.error (Fail.exited msg) := by
  unfold argValidationFailure at h
  unfold processSecretSetArg
  cases hs : splitN2 arg with
  | nil => rw [hs] at h; simp at h
  | cons k0 rest =>
    rw [hs] at h
    by_cases hk : k0 = []
    · simp only [if_pos hk, Option.some.injEq] at h
      simp [hk, h]
    · cases rest with
      | nil => simp [hk] at h
      | cons v0 rest2 =>
        by_cases hv : v0 = []
        · simp only [if_neg hk, if_pos hv, Option.some.injEq] at h
          simp [hk, hv, h]
        · by_cases hd : (k0.headD ' ').isDigit
          · have hd2 : ((k0.head?).getD ' ').isDigit = true := by
              simpa [List.headD_eq_head?_getD] using hd
            simp only [List.headD_eq_head?_getD, hd2, if_neg hk, if_neg hv,
              if_true, Option.some.injEq] at h
            simp [hk, hv, List.headD_eq_head?_getD, hd2, h]
          · have hd2 : ((k0.head?).getD ' ').isDigit = false := by
              simpa [List.headD_eq_head?_getD] using hd
            simp [hk, hv, hd2] at h

/-- A non-empty argument with no `=` panics on the out-of-range index,
whatever the accumulated state. -/
theorem processSecretSetArg_panics (enc : Str → SymmetricallyEncryptedData)
    (m : Str → Option SingleEnvironmentVariable) (st : SetState) (arg : Str)
    (hne : arg ≠ []) (hq : '=' ∉ arg) :
    processSecretSetArg enc m st arg = Except.error Fail.paniced := by
  unfold processSecretSetArg
  rw [splitN2_no_eq arg hq]
  simp [hne]

/-- A successful run appends, argument by argument and in order, the
per-argument contributions to all four components of the state. -/
theorem runSecretSetArgs_ok (enc : Str → SymmetricallyEncryptedData)
    (m : Str → Option SingleEnvironmentVariable) :
    ∀ (args : List Str) (st0 st : SetState),
      runSecretSetArgs enc m st0 args = (st, none) →
        st.toCreate = st0.toCreate ++ args.filterMap (createSpec enc m) ∧
        st.toModify = st0.toModify ++ args.filterMap (modifySpec enc m) ∧
        st.operations = st0.operations ++ args.filterMap (opSpec m) ∧
        st.trace = st0.trace ++ args.flatMap argTrace ∧
        ∀ a ∈ args, (parseOk a).isSome := by
  intro args
  induction args with
  | nil =>
    intro st0 st h
    simp only [runSecretSetArgs] at h
    obtain ⟨h1, _⟩ := Prod.mk.injEq .. ▸ h
    rw [← h1]
    simp
  | cons a rest ih =>
    intro st0 st h
    simp only [runSecretSetArgs] at h
    cases hp : processSecretSetArg enc m st0 a with
    | error f => rw [hp] at h; simp at h
    | ok st1 =>
      rw [hp] at h
      have hps : (parseOk a).isSome := processSecretSetArg_ok_parse enc m st0 a st1 hp
      obtain ⟨⟨k, v⟩, hkv⟩ := Option.isSome_iff_exists.mp hps
      have hchar := processSecretSetArg_ok_char enc m st0 a k v hkv
      rw [hchar] at hp
      have hst1 := (Except.ok.injEq _ _ ▸ hp).symm
      obtain ⟨h1, h2, h3, h4, h5⟩ := ih st1 st h
      subst hst1
      refine ⟨?_, ?_, ?_, ?_, ?_⟩
      · rw [h1, filterMap_cons_toList]; simp
      · rw [h2, filterMap_cons_toList]; simp
      · rw [h3, filterMap_cons_toList]; simp
      · rw [h4, List.flatMap_cons]; simp
      · intro x hx
        rcases List.mem_cons.mp hx with hx | hx
        · subst hx; exact hps
        · exact h5 x hx

/-- A run over a valid prefix followed by a failing argument stops at
the failing argument, having accumulated exactly the contributions of
the prefix; the arguments from the failing one on contribute
nothing. -/
theorem runSecretSetArgs_stop (enc : Str → SymmetricallyEncryptedData)
    (m : Str → Option SingleEnvironmentVariable) (bad : Str)
    (rest : List Str) (f : Fail)
    (hbad : ∀ st : SetState, processSecretSetArg enc m st bad = Except.error f) :
    ∀ (pre : List Str) (st0 : SetState), (∀ a ∈ pre, (parseOk a).isSome) →
      runSecretSetArgs enc m st0 (pre ++ bad :: rest) =
        ({ toCreate := st0.toCreate ++ pre.filterMap (createSpec enc m)
           toModify := st0.toModify ++ pre.filterMap (modifySpec enc m)
           operations := st0.operations ++ pre.filterMap (opSpec m)
           trace := st0.trace ++ pre.flatMap argTrace }, some f) := by
  intro pre
  induction pre with
  | nil =>
    intro st0 _
    simp only [List.nil_append, runSecretSetArgs, hbad st0]
    simp
  | cons a pre ih =>
    intro st0 hpre
    have ha : (parseOk a).isSome := hpre a (List.mem_cons_self a pre)
    obtain ⟨⟨k, v⟩, hkv⟩ := Option.isSome_iff_exists.mp ha
    have hchar := processSecretSetArg_ok_char enc m st0 a k v hkv
    simp only [List.cons_append, runSecretSetArgs, hchar, List.append_eq]
    rw [ih _ (fun x hx => hpre x (List.mem_cons_of_mem a hx))]
    refine congrArg (fun st => (st, some f)) ?_
    refine SetState.mk.injEq .. ▸ ?_
    refine ⟨?_, ?_, ?_, ?_⟩
    · rw [filterMap_cons_toList]; simp
    · rw [filterMap_cons_toList]; simp
    · rw [filterMap_cons_toList]; simp
    · rw [List.flatMap_cons]; simp

/-- Inverting a successful `secrets set` run: the loop succeeded and
the trailing batch network calls change only the trace. -/
theorem secretsSetRun_ok_inv (enc : Str → SymmetricallyEncryptedData)
    (remote : List SingleEnvironmentVariable) (args : List Str) (st : SetState)
    (h : secretsSetRun enc remote args = (st, none)) :
    ∃ st1, runSecretSetArgs enc (getSecretsByKeys remote) {} args = (st1, none) ∧
      st.toCreate = st1.toCreate ∧ st.toModify = st1.toModify ∧
      st.operations = st1.operations := by
  simp only [secretsSetRun] at h
  rcases hr : runSecretSetArgs enc (getSecretsByKeys remote) {} args with ⟨st1, f1⟩
  rw [hr] at h
  cases f1 with
  | some f => simp at h
  | none =>
    refine ⟨st1, rfl, ?_⟩
    by_cases h1 : st1.toCreate.length > 0 <;>
      by_cases h2 : st1.toModify.length > 0 <;>
      simp only [h1, h2, if_pos, if_neg, if_true, if_false, not_false_iff,
        reduceIte] at h <;>
      simp only [Prod.mk.injEq, and_true] at h <;>
      rw [← h] <;> simp

/-- The pairwise-distinct operation strings. -/
theorem opStrings_distinct :
    opCreated ≠ opModified ∧ opCreated ≠ opUnchanged ∧ opModified ≠ opUnchanged := by
  refine ⟨?_, ?_, ?_⟩ <;> decide

/-- The logged key/value pairs are the validated argument pairs, in
input order. -/
theorem filterMap_opSpec_map_kv (m : Str → Option SingleEnvironmentVariable) :
    ∀ args : List Str,
      (args.filterMap (opSpec m)).map (fun op => (op.secretKey, op.secretValue)) =
        args.filterMap parseOk := by
  intro args
  induction args with
  | nil => rfl
  | cons a rest ih =>
    cases hp : parseOk a with
    | none => simp [List.filterMap_cons, opSpec, hp, ih]
    | some kv =>
      obtain ⟨k, v⟩ := kv
      simp only [List.filterMap_cons, opSpec, hp, Option.map_some]
      cases hm : m k with
      | some ex =>
        by_cases hne : ex.value ≠ v
        · simp [hm, hne, ih]
        · have heq : ex.value = v := not_ne_iff.mp hne
          simp [hm, heq, ih]
      | none => simp [hm, ih]

/-- With every argument valid, one operation is logged per argument. -/
theorem filterMap_opSpec_length (m : Str → Option SingleEnvironmentVariable) :
    ∀ args : List Str, (∀ a ∈ args, (parseOk a).isSome) →
      (args.filterMap (opSpec m)).length = args.length := by
  intro args
  induction args with
  | nil => intro _; rfl
  | cons a rest ih =>
    intro hall
    have ha : (parseOk a).isSome := hall a (List.mem_cons_self a rest)
    obtain ⟨⟨k, v⟩, hkv⟩ := Option.isSome_iff_exists.mp ha
    obtain ⟨op, hop⟩ := Option.isSome_iff_exists.mp
      (show (opSpec m a).isSome by simp [opSpec, hkv])
    simp only [List.filterMap_cons, hop, List.length_cons]
    rw [ih (fun x hx => hall x (List.mem_cons_of_mem a hx))]

/-- Every logged operation carries one of the three kind strings. -/
theorem opSpec_kinds (m : Str → Option SingleEnvironmentVariable) (a : Str)
    (op : SecretSetOperation) (h : opSpec m a = some op) :
    op.secretOperation = opCreated ∨ op.secretOperation = opModified ∨
      op.secretOperation = opUnchanged := by
  unfold opSpec at h
  cases hp : parseOk a with
  | none => rw [hp] at h; simp at h
  | some kv =>
    obtain ⟨k, v⟩ := kv
    rw [hp] at h
    simp only [Option.map_some', Option.some.injEq] at h
    cases hm : m k with
    | some ex =>
      simp only [hm] at h
      by_cases hne : ex.value ≠ v
      · rw [if_pos hne] at h; rw [← h]; right; left; rfl
      · rw [if_neg hne] at h; rw [← h]; right; right; rfl
    | none => simp only [hm] at h; rw [← h]; left; rfl

/-- The create batch has exactly one entry per Created operation. -/
theorem createSpec_count (enc : Str → SymmetricallyEncryptedData)
    (m : Str → Option SingleEnvironmentVariable) : ∀ args : List Str,
    (args.filterMap (createSpec enc m)).length =
      ((args.filterMap (opSpec m)).filter
        (fun op => op.secretOperation == opCreated)).length := by
  intro args
  induction args with
  | nil => rfl
  | cons a rest ih =>
    cases hp : parseOk a with
    | none => simp [List.filterMap_cons, opSpec, createSpec, hp, ih]
    | some kv =>
      obtain ⟨k, v⟩ := kv
      simp only [List.filterMap_cons, opSpec, createSpec, hp, Option.map_some,
        Option.some_bind]
      cases hm : m k with
      | some ex =>
        by_cases hne : ex.value ≠ v
        · simp [hm, hne, List.filter_cons, ih,
            show (opModified == opCreated) = false from by decide]
        · have heq : ex.value = v := not_ne_iff.mp hne
          simp [hm, heq, List.filter_cons, ih,
            show (opUnchanged == opCreated) = false from by decide]
      | none =>
        simp [hm, List.filter_cons, ih,
          show (opCreated == opCreated) = true from by decide]

/-- The modify batch has exactly one entry per Modified operation. -/
theorem modifySpec_count (enc : Str → SymmetricallyEncryptedData)
    (m : Str → Option SingleEnvironmentVariable) : ∀ args : List Str,
    (args.filterMap (modifySpec enc m)).length =
      ((args.filterMap (opSpec m)).filter
        (fun op => op.secretOperation == opModified)).length := by
  intro args
  induction args with
  | nil => rfl
  | cons a rest ih =>
    cases hp : parseOk a with
    | none => simp [List.filterMap_cons, opSpec, modifySpec, hp, ih]
    | some kv =>
      obtain ⟨k, v⟩ := kv
      simp only [List.filterMap_cons, opSpec, modifySpec, hp, Option.map_some,
        Option.some_bind]
      cases hm : m k with
      | some ex =>
        by_cases hne : ex.value ≠ v
        · simp [hm, hne, List.filter_cons, ih,
            show (opModified == opModified) = true from by decide]
        · have heq : ex.value = v := not_ne_iff.mp hne
          simp [hm, heq, List.filter_cons, ih,
            show (opUnchanged == opModified) = false from by decide]
      | none =>
        simp [hm, List.filter_cons, ih,
          show (opCreated == opModified) = false from by decide]

/-- Case analysis of one classified argument: its operation kind
determines which batch (if any) receives its entry. -/
theorem specs_casework (enc : Str → SymmetricallyEncryptedData)
    (m : Str → Option SingleEnvironmentVariable) (a : Str)
    (op : SecretSetOperation) (h : opSpec m a = some op) :
    (op.secretOperation = opCreated →
      (∃ e, createSpec enc m a = some e) ∧ modifySpec enc m a = none) ∧
    (op.secretOperation = opModified →
      (∃ e, modifySpec enc m a = some e) ∧ createSpec enc m a = none) ∧
    (op.secretOperation = opUnchanged →
      createSpec enc m a = none ∧ modifySpec enc m a = none) := by
  unfold opSpec at h
  cases hp : parseOk a with
  | none => rw [hp] at h; simp at h
  | some kv =>
    obtain ⟨k, v⟩ := kv
    rw [hp] at h
    simp only [Option.map_some', Option.some.injEq] at h
    unfold createSpec modifySpec
    rw [hp]
    simp only [Option.some_bind]
    cases hm : m k with
    | some ex =>
      simp only [hm] at h
      simp only [hm]
      by_cases hne : ex.value ≠ v
      · rw [if_pos hne] at h
        subst h
        exact ⟨fun hc => absurd hc.symm opStrings_distinct.1,
          fun _ => ⟨⟨mkModifyEntry enc ex v, if_pos hne⟩, trivial⟩,
          fun hu => absurd hu opStrings_distinct.2.2⟩
      · rw [if_neg hne] at h
        subst h
        exact ⟨fun hc => absurd hc.symm opStrings_distinct.2.1,
          fun hmo => absurd hmo.symm opStrings_distinct.2.2,
          fun _ => ⟨trivial, if_neg hne⟩⟩
    | none =>
      simp only [hm] at h
      simp only [hm]
      subst h
      exact ⟨fun _ => ⟨⟨mkCreateEntry enc k v, rfl⟩, trivial⟩,
        fun hmo => absurd hmo opStrings_distinct.1,
        fun hu => absurd hu opStrings_distinct.2.1⟩

/-! ## C1, C2, C3, C9: the `secrets set` claims -/

/-- C1: for every validated `secrets set` run, each argument is
classified into exactly one of the three operation kinds, the number
of logged operations equals the number of arguments and follows the
input order, Created arguments populate the create batch, Modified
arguments populate the modify batch, and Unchanged arguments populate
neither. -/
theorem secretsSet_partitions_and_orders (enc : Str → SymmetricallyEncryptedData)
    (remote : List SingleEnvironmentVariable) (args : List Str) (st : SetState)
    (h : secretsSetRun enc remote args = (st, none)) :
    SetRunOutcomeSpec enc remote args st := by
  obtain ⟨st1, hrun, hc, hm2, ho⟩ := secretsSetRun_ok_inv enc remote args st h
  obtain ⟨h1, h2, h3, h4, h5⟩ :=
    runSecretSetArgs_ok enc (getSecretsByKeys remote) args {} st1 hrun
  have hco : st.toCreate = args.filterMap (createSpec enc (getSecretsByKeys remote)) := by
    rw [hc, h1]; simp
  have hmo : st.toModify = args.filterMap (modifySpec enc (getSecretsByKeys remote)) := by
    rw [hm2, h2]; simp
  have hoo : st.operations = args.filterMap (opSpec (getSecretsByKeys remote)) := by
    rw [ho, h3]; simp
  unfold SetRunOutcomeSpec
  refine ⟨?_, ?_, ?_, hco, hmo, ?_, ?_, ?_⟩
  · rw [hoo]; exact filterMap_opSpec_length _ args h5
  · rw [hoo]; exact filterMap_opSpec_map_kv _ args
  · rw [hoo]
    intro op hop
    obtain ⟨a, _, hopa⟩ := List.mem_filterMap.mp hop
    exact opSpec_kinds _ a op hopa
  · rw [hco, hoo]; exact createSpec_count enc _ args
  · rw [hmo, hoo]; exact modifySpec_count enc _ args
  · intro a ha op hop
    have hcw := specs_casework enc (getSecretsByKeys remote) a op hop
    refine ⟨fun hk => ?_, fun hk => ?_, fun hk => hcw.2.2 hk⟩
    · obtain ⟨⟨e, he⟩, hmnone⟩ := hcw.1 hk
      exact ⟨e, he, by rw [hco]; exact List.mem_filterMap.mpr ⟨a, ha, he⟩, hmnone⟩
    · obtain ⟨⟨e, he⟩, hcnone⟩ := hcw.2.1 hk
      exact ⟨e, he, by rw [hmo]; exact List.mem_filterMap.mpr ⟨a, ha, he⟩, hcnone⟩

/-- C1 witness: a concrete run producing one Unchanged, one Modified
and one Created operation. -/
theorem secretsSet_partitions_and_orders_witness :
    secretsSetRun encZero exRemoteSet exSetArgs =
      ((secretsSetRun encZero exRemoteSet exSetArgs).1, none) ∧
    SetRunOutcomeSpec encZero exRemoteSet exSetArgs
      (secretsSetRun encZero exRemoteSet exSetArgs).1 :=
  ⟨by decide, secretsSet_partitions_and_orders encZero exRemoteSet exSetArgs _ (by decide)⟩

/-- Pointwise decision for an existing key: plaintext comparison with
the remote value picks Modified (remote id kept, value fields freshly
sealed) or Unchanged (no batch entry). -/
theorem modify_decision_pointwise (enc : Str → SymmetricallyEncryptedData)
    (m : Str → Option SingleEnvironmentVariable) (a : Str) (k v : Str)
    (ex : SingleEnvironmentVariable)
    (hp : parseOk a = some (k, v)) (hm : m k = some ex) :
    (ex.value ≠ v →
      modifySpec enc m a = some
        { id := ex.id
          secretValueCiphertext := (enc v).cipherText
          secretValueIV := (enc v).nonce
          secretValueTag := (enc v).authTag
          secretValueHash := sha256Hex v } ∧
      opSpec m a = some ⟨k, v, opModified⟩) ∧
    (ex.value = v →
      modifySpec enc m a = none ∧ createSpec enc m a = none ∧
      opSpec m a = some ⟨k, v, opUnchanged⟩) := by
  unfold modifySpec createSpec opSpec
  rw [hp]
  simp only [Option.some_bind, Option.map_some', hm]
  constructor
  · intro hne
    constructor
    · rw [if_pos hne]; rfl
    · simp [hne]
  · intro heq
    refine ⟨by simp [heq], trivial, by simp [heq]⟩

/-- C2: in every successful run, the modify batch consists exactly of
the entries for existing keys whose remote plaintext differs from the
desired plaintext; each such entry keeps the remote id with freshly
sealed value fields, and equal plaintexts log Unchanged with no batch
entry. -/
theorem secretsSet_modify_by_plaintext (enc : Str → SymmetricallyEncryptedData)
    (remote : List SingleEnvironmentVariable) (args : List Str) (st : SetState)
    (h : secretsSetRun enc remote args = (st, none)) :
    SetModifyOutcomeSpec enc remote args st := by
  obtain ⟨st1, hrun, hc, hm2, ho⟩ := secretsSetRun_ok_inv enc remote args st h
  obtain ⟨h1, h2, h3, h4, h5⟩ :=
    runSecretSetArgs_ok enc (getSecretsByKeys remote) args {} st1 hrun
  refine ⟨by rw [hm2, h2]; simp, by rw [ho, h3]; simp, ?_⟩
  intro a _ k v hp ex hm
  exact modify_decision_pointwise enc (getSecretsByKeys remote) a k v ex hp hm

/-- C2 witness at the concrete run of C1's scenario. -/
theorem secretsSet_modify_by_plaintext_witness :
    secretsSetRun encZero exRemoteSet exSetArgs =
      ((secretsSetRun encZero exRemoteSet exSetArgs).1, none) ∧
    SetModifyOutcomeSpec encZero exRemoteSet exSetArgs
      (secretsSetRun encZero exRemoteSet exSetArgs).1 :=
  ⟨by decide, secretsSet_modify_by_plaintext encZero exRemoteSet exSetArgs _ (by decide)⟩

/-- No per-argument event is a network event. -/
theorem argTrace_no_net (a : Str) : ∀ e ∈ argTrace a, isNetEvent e = false := by
  intro e he
  unfold argTrace at he
  cases hp : parseOk a with
  | none => rw [hp] at he; simp at he
  | some kv =>
    rw [hp] at he
    simp only [List.mem_cons, List.mem_singleton, List.not_mem_nil, or_false] at he
    rcases he with h | h | h | h <;> subst h <;> rfl

/-- The trace of the validated prefix contains no network event. -/
theorem flatMap_argTrace_no_net (l : List Str) :
    (l.flatMap argTrace).filter isNetEvent = [] := by
  rw [List.filter_eq_nil_iff]
  intro e he
  obtain ⟨a, _, hea⟩ := List.mem_flatMap.mp he
  simp [argTrace_no_net a e hea]

/-- C3: an argument with an empty key, an empty value, or a
digit-leading key aborts the whole command with a validation exit;
the state reached holds only the contributions of the earlier valid
arguments — no hashing or encryption happened for the failing or any
later argument — and no batch network call is ever issued. -/
theorem secretsSet_validation_fail_fast (enc : Str → SymmetricallyEncryptedData)
    (remote : List SingleEnvironmentVariable) (pre : List Str) (bad : Str)
    (rest : List Str) (msg : Str)
    (hpre : ∀ a ∈ pre, (parseOk a).isSome)
    (hbad : argValidationFailure bad = some msg) :
    secretsSetRun enc remote (pre ++ bad :: rest) =
      ({ toCreate := pre.filterMap (createSpec enc (getSecretsByKeys remote))
         toModify := pre.filterMap (modifySpec enc (getSecretsByKeys remote))
         operations := pre.filterMap (opSpec (getSecretsByKeys remote))
         trace := pre.flatMap argTrace }, some (Fail.exited msg)) ∧
    (pre.flatMap argTrace).filter isNetEvent = [] := by
  have hb : ∀ st, processSecretSetArg enc (getSecretsByKeys remote) st bad =
      Except.error (Fail.exited msg) :=
    fun st => processSecretSetArg_exited enc _ st bad msg hbad
  have hstop := runSecretSetArgs_stop enc (getSecretsByKeys remote) bad rest
    (Fail.exited msg) hb pre {} hpre
  refine ⟨?_, flatMap_argTrace_no_net pre⟩
  simp only [secretsSetRun]
  rw [hstop]
  simp

/-- C3 witness: the spec's own validation example, `1KEY=v`. -/
theorem secretsSet_validation_fail_fast_witness :
    (∀ a ∈ ([] : List Str), (parseOk a).isSome) ∧
    argValidationFailure ("1KEY=v").toList = some numericKeyMsg ∧
    (secretsSetRun encZero exRemoteSet ([] ++ ("1KEY=v").toList :: []) =
      ({ toCreate := ([] : List Str).filterMap (createSpec encZero (getSecretsByKeys exRemoteSet))
         toModify := ([] : List Str).filterMap (modifySpec encZero (getSecretsByKeys exRemoteSet))
         operations := ([] : List Str).filterMap (opSpec (getSecretsByKeys exRemoteSet))
         trace := ([] : List Str).flatMap argTrace }, some (Fail.exited numericKeyMsg)) ∧
      (([] : List Str).flatMap argTrace).filter isNetEvent = []) :=
  ⟨by simp, by decide,
   secretsSet_validation_fail_fast encZero exRemoteSet [] _ [] _ (by simp) (by decide)⟩

/-- C9: a non-empty argument with no `=` splits into a single-element
slice, whose index 1 is out of range: the command panics rather than
reporting a validation exit. -/
theorem setArg_missing_eq_panics (enc : Str → SymmetricallyEncryptedData)
    (remote : List SingleEnvironmentVariable) (pre : List Str) (bad : Str)
    (rest : List Str)
    (hpre : ∀ a ∈ pre, (parseOk a).isSome)
    (hne : bad ≠ []) (hq : '=' ∉ bad) :
    splitN2 bad = [bad] ∧ (splitN2 bad).length = 1 ∧
    (secretsSetRun enc remote (pre ++ bad :: rest)).2 = some Fail.paniced ∧
    ∀ msg, Fail.paniced ≠ Fail.exited msg := by
  have hsp := splitN2_no_eq bad hq
  have hb : ∀ st, processSecretSetArg enc (getSecretsByKeys remote) st bad =
      Except.error Fail.paniced :=
    fun st => processSecretSetArg_panics enc _ st bad hne hq
  have hstop := runSecretSetArgs_stop enc (getSecretsByKeys remote) bad rest
    Fail.paniced hb pre {} hpre
  refine ⟨hsp, by rw [hsp]; rfl, ?_, fun msg hcon => Fail.noConfusion hcon⟩
  simp only [secretsSetRun]
  rw [hstop]

/-- C9 witness: the argument `FOO` panics. -/
theorem setArg_missing_eq_panics_witness :
    (∀ a ∈ ([] : List Str), (parseOk a).isSome) ∧
    ("FOO").toList ≠ [] ∧ '=' ∉ ("FOO").toList ∧
    (splitN2 ("FOO").toList = [("FOO").toList] ∧
      (splitN2 ("FOO").toList).length = 1 ∧
      (secretsSetRun encZero exRemoteSet ([] ++ ("FOO").toList :: [])).2 =
        some Fail.paniced ∧
      ∀ msg, Fail.paniced ≠ Fail.exited msg) :=
  ⟨by simp, by decide, by decide,
   setArg_missing_eq_panics encZero exRemoteSet [] _ [] (by simp) (by decide) (by decide)⟩

/-! ## C4, C5: key lookup and deletion resolution -/

/-- The remote map hits exactly the stored keys, verbatim. -/
theorem getSecretsByKeys_isSome_iff (secrets : List SingleEnvironmentVariable)
    (k : Str) :
    (getSecretsByKeys secrets k).isSome ↔ ∃ s ∈ secrets, s.key = k := by
  suffices h : ∀ m0 : Str → Option SingleEnvironmentVariable,
      ((secrets.foldl (fun m s => fun k2 => if k2 = s.key then some s else m k2) m0) k).isSome ↔
        (∃ s ∈ secrets, s.key = k) ∨ (m0 k).isSome by
    simpa [getSecretsByKeys] using h (fun _ => none)
  induction secrets with
  | nil => intro m0; simp
  | cons s rest ih =>
    intro m0
    rw [List.foldl_cons, ih]
    by_cases hk : k = s.key
    · simp [hk]
    · simp only [List.mem_cons]
      constructor
      · rintro (⟨x, hx, hxk⟩ | hm0)
        · exact Or.inl ⟨x, Or.inr hx, hxk⟩
        · rw [if_neg hk] at hm0
          exact Or.inr hm0
      · rintro (⟨x, hx | hx, hxk⟩ | hm0)
        · subst hx; exact absurd hxk.symm hk
        · exact Or.inl ⟨x, hx, hxk⟩
        · exact Or.inr (by rw [if_neg hk]; exact hm0)

/-- C4 counterexample: with the remote key stored as `db_url`, the
uppercased desired key misses the map even though a remote entry with
exactly that spelling exists; the pair is classified Created instead
of matching the existing entry (whose value is equal, so the claim
would demand Unchanged). -/
theorem lookup_not_case_insensitive_counterexample :
    getSecretsByKeys exRemoteLower (toUpperStr ("db_url").toList) = none ∧
    (∃ s ∈ exRemoteLower, s.key = ("db_url").toList) ∧
    (secretsSetRun encZero exRemoteLower [("db_url=x").toList]).1.operations.map
      (fun op => op.secretOperation) = [opCreated] ∧
    opCreated ≠ opUnchanged :=
  ⟨by decide, by decide, by decide, by decide⟩

/-- C4 (amended): lookups uppercase only the queried key while the
remote map is keyed by the stored key verbatim, so a query matches iff
some stored key equals the uppercased query; when every stored key is
uppercase (the store's normal form per the data model) the comparison
is case-insensitive and `db_url` matches a stored `DB_URL`. -/
theorem lookup_uppercases_query_only (secrets : List SingleEnvironmentVariable)
    (q : Str) :
    ((getSecretsByKeys secrets (toUpperStr q)).isSome ↔
      ∃ s ∈ secrets, s.key = toUpperStr q) ∧
    ((∀ s ∈ secrets, toUpperStr s.key = s.key) →
      ((getSecretsByKeys secrets (toUpperStr q)).isSome ↔
        ∃ s ∈ secrets, toUpperStr s.key = toUpperStr q)) := by
  refine ⟨getSecretsByKeys_isSome_iff secrets (toUpperStr q), fun hU => ?_⟩
  rw [getSecretsByKeys_isSome_iff]
  constructor
  · rintro ⟨s, hs, hk⟩
    exact ⟨s, hs, by rw [hU s hs, hk]⟩
  · rintro ⟨s, hs, hk⟩
    exact ⟨s, hs, by rw [← hU s hs, hk]⟩

/-- C4 witness: an uppercase store resolves `db_url` to `DB_URL`. -/
theorem lookup_uppercases_query_only_witness :
    (∀ s ∈ exRemoteUpper, toUpperStr s.key = s.key) ∧
    ((getSecretsByKeys exRemoteUpper (toUpperStr ("db_url").toList)).isSome ↔
      ∃ s ∈ exRemoteUpper, toUpperStr s.key = toUpperStr ("db_url").toList) ∧
    (getSecretsByKeys exRemoteUpper (toUpperStr ("db_url").toList)).isSome :=
  ⟨by decide,
   (lookup_uppercases_query_only exRemoteUpper (("db_url").toList)).2 (by decide),
   by decide⟩

/-- Name resolution visits the arguments in order, collecting hits and
unknown names. -/
theorem resolveForDeletion_char (m : Str → Option SingleEnvironmentVariable)
    (args : List Str) :
    (resolveForDeletion m args).1 =
      args.filterMap (fun a => (m (toUpperStr a)).map (fun v => v.id)) ∧
    (resolveForDeletion m args).2 =
      args.filter (fun a => (m (toUpperStr a)).isNone) := by
  suffices h : ∀ st0 : List Str × List Str,
      args.foldl
        (fun st a =>
          match m (toUpperStr a) with
          | some v => (st.1 ++ [v.id], st.2)
          | none => (st.1, st.2 ++ [a])) st0 =
        (st0.1 ++ args.filterMap (fun a => (m (toUpperStr a)).map (fun v => v.id)),
         st0.2 ++ args.filter (fun a => (m (toUpperStr a)).isNone)) by
    have h2 := h ([], [])
    unfold resolveForDeletion
    rw [h2]
    simp
  induction args with
  | nil => intro st0; simp
  | cons a rest ih =>
    intro st0
    rw [List.foldl_cons]
    cases hm : m (toUpperStr a) with
    | some v =>
      rw [ih]
      simp [List.filterMap_cons, List.filter_cons, hm]
    | none =>
      rw [ih]
      simp [List.filterMap_cons, List.filter_cons, hm]

/-- C5: deletion name resolution uppercases each requested name and
resolves it against the stored keys (case-insensitive whenever the
stored keys are uppercase, the store's normal form); if any name is
unknown, every unknown name is reported together in one exit and the
batch delete is never issued — none of the valid names is deleted
either; only when all names resolve is the single batch delete
issued. -/
theorem delete_all_or_nothing (remote : List SingleEnvironmentVariable)
    (args : List Str) :
    (resolveForDeletion (getSecretsByKeys remote) args).1 =
      args.filterMap (fun a => (getSecretsByKeys remote (toUpperStr a)).map (fun v => v.id)) ∧
    (resolveForDeletion (getSecretsByKeys remote) args).2 =
      args.filter (fun a => (getSecretsByKeys remote (toUpperStr a)).isNone) ∧
    ((resolveForDeletion (getSecretsByKeys remote) args).2 ≠ [] →
      secretsDeleteRun remote args =
        ([], some (Fail.exited (deleteUnknownMsg
          (resolveForDeletion (getSecretsByKeys remote) args).2)))) ∧
    ((resolveForDeletion (getSecretsByKeys remote) args).2 = [] →
      secretsDeleteRun remote args =
        ([Event.netDelete (resolveForDeletion (getSecretsByKeys remote) args).1],
          none)) ∧
    ((∀ s ∈ remote, toUpperStr s.key = s.key) → ∀ a : Str,
      ((getSecretsByKeys remote (toUpperStr a)).isSome ↔
        ∃ s ∈ remote, toUpperStr s.key = toUpperStr a)) := by
  obtain ⟨h1, h2⟩ := resolveForDeletion_char (getSecretsByKeys remote) args
  refine ⟨h1, h2, ?_, ?_, ?_⟩
  · intro hne
    simp only [secretsDeleteRun]
    rw [if_pos (by simpa [List.length_eq_zero] using hne)]
  · intro hnil
    simp only [secretsDeleteRun]
    rw [if_neg (by simp [hnil])]
  · intro hU a
    rw [getSecretsByKeys_isSome_iff]
    constructor
    · rintro ⟨s, hs, hk⟩
      exact ⟨s, hs, by rw [hU s hs, hk]⟩
    · rintro ⟨s, hs, hk⟩
      exact ⟨s, hs, by rw [← hU s hs, hk]⟩

/-- C5 witness: the spec's example — remote keys A and B, requested
names A and C: C is reported unknown and nothing is deleted. -/
theorem delete_all_or_nothing_witness :
    (resolveForDeletion (getSecretsByKeys exRemoteAB)
      [("A").toList, ("C").toList]).2 ≠ [] ∧
    secretsDeleteRun exRemoteAB [("A").toList, ("C").toList] =
      ([], some (Fail.exited (deleteUnknownMsg
        (resolveForDeletion (getSecretsByKeys exRemoteAB)
          [("A").toList, ("C").toList]).2))) :=
  ⟨by decide,
   (delete_all_or_nothing exRemoteAB [("A").toList, ("C").toList]).2.2.1 (by decide)⟩

/-! ## C6: the template generator's group order and headings -/

/-- A successfully rendered group satisfies `RenderRel`. -/
theorem renderGroup_rel (g : TagsAndSecrets) (r : RenderedGroup)
    (h : renderGroup g = Except.ok r) : RenderRel g r := by
  simp only [renderGroup] at h
  cases hc : CenterString (joinSep (" & ").toList (g.tags.map SecretTag.name)) 80 with
  | error f => simp only [hc] at h; simp at h
  | ok hd =>
    simp only [hc] at h
    by_cases hlen : (g.tags.map SecretTag.name).length = 0
    · rw [if_pos hlen] at h
      have htags : g.tags = [] := by simpa using hlen
      simp only [Except.ok.injEq] at h
      subst h
      exact ⟨rfl, rfl, rfl, ⟨fun _ => htags, fun _ => rfl⟩,
        fun hne => absurd htags hne⟩
    · rw [if_neg hlen] at h
      have htags : g.tags ≠ [] := by
        intro hcon
        exact hlen (by simp [hcon])
      simp only [Except.ok.injEq] at h
      subst h
      refine ⟨rfl, rfl, rfl, ⟨fun hcon => by simp at hcon, fun hcon => absurd hcon htags⟩,
        fun _ => ⟨hd, hc, rfl⟩⟩

/-- Rendering a whole list relates it pointwise to its input. -/
theorem renderGroups_forall2 : ∀ (l : List TagsAndSecrets) (gs : List RenderedGroup),
    renderGroups l = Except.ok gs → List.Forall₂ RenderRel l gs := by
  intro l
  induction l with
  | nil =>
    intro gs h
    simp only [renderGroups, Except.ok.injEq] at h
    subst h
    exact List.Forall₂.nil
  | cons g rest ih =>
    intro gs h
    simp only [renderGroups] at h
    cases hg : renderGroup g with
    | error f => rw [hg] at h; simp at h
    | ok r =>
      rw [hg] at h
      cases hr : renderGroups rest with
      | error f => rw [hr] at h; simp at h
      | ok rs =>
        rw [hr] at h
        simp only [Except.ok.injEq] at h
        subst h
        exact List.Forall₂.cons (renderGroup_rel g r hg) (ih rs hr)

/-- The rendered groups keep their input groups' tags, in order. -/
theorem forall2_tags_map : ∀ {l : List TagsAndSecrets} {gs : List RenderedGroup},
    List.Forall₂ RenderRel l gs →
    gs.map (fun r => r.tags) = l.map (fun g => g.tags) := by
  intro l gs h
  induction h with
  | nil => rfl
  | cons hrel _ ih => simp [hrel.1, ih]

/-- Every rendered group comes from some input group. -/
theorem forall2_mem_right : ∀ {l : List TagsAndSecrets} {gs : List RenderedGroup},
    List.Forall₂ RenderRel l gs → ∀ r ∈ gs, ∃ g ∈ l, RenderRel g r := by
  intro l gs h
  induction h with
  | nil => intro r hr; simp at hr
  | cons hrel _ ih =>
    intro r hr
    rcases List.mem_cons.mp hr with hr | hr
    · subst hr; exact ⟨_, List.mem_cons_self _ _, hrel⟩
    · obtain ⟨g, hg, hgr⟩ := ih r hr
      exact ⟨g, List.mem_cons_of_mem _ hg, hgr⟩

/-- Updating the grouping map only adds the updated entry. -/
theorem mem_setGroup (k : List Str) (v : TagsAndSecrets) :
    ∀ (m : List (List Str × TagsAndSecrets)) (p : List Str × TagsAndSecrets),
      p ∈ setGroup m k v → p ∈ m ∨ p = (k, v) := by
  intro m
  induction m with
  | nil =>
    intro p hp
    simp only [setGroup, List.mem_singleton] at hp
    exact Or.inr hp
  | cons q rest ih =>
    intro p hp
    obtain ⟨k2, v2⟩ := q
    simp only [setGroup] at hp
    by_cases hk : k = k2
    · rw [if_pos hk] at hp
      rcases List.mem_cons.mp hp with hp | hp
      · subst hp; exact Or.inr (by rw [hk])
      · exact Or.inl (List.mem_cons_of_mem _ hp)
    · rw [if_neg hk] at hp
      rcases List.mem_cons.mp hp with hp | hp
      · subst hp; exact Or.inl (List.mem_cons_self _ _)
      · rcases ih p hp with hin | heq
        · exact Or.inl (List.mem_cons_of_mem _ hin)
        · exact Or.inr heq

/-- Every group built by the two-pass scheme keeps its member list
sorted ascending by key. -/
theorem buildGroups_sorted (secrets : List SingleEnvironmentVariable) :
    ∀ p ∈ buildGroups secrets, List.Sorted keyLe p.2.secrets := by
  suffices h : ∀ (l : List SingleEnvironmentVariable)
      (st : (List Str → Nat) × List (List Str × TagsAndSecrets)),
      (∀ p ∈ st.2, List.Sorted keyLe p.2.secrets) →
      ∀ p ∈ (l.foldl insertSecretIntoGroups st).2, List.Sorted keyLe p.2.secrets by
    intro p hp
    exact h secrets (tagsHashCounts secrets, []) (by simp) p hp
  intro l
  induction l with
  | nil => intro st hst p hp; exact hst p hp
  | cons s rest ih =>
    intro st hst p hp
    rw [List.foldl_cons] at hp
    refine ih (insertSecretIntoGroups st s) ?_ p hp
    intro q hq
    unfold insertSecretIntoGroups at hq
    by_cases hocc : 0 < st.1 (secretTagsHash s)
    · rw [if_pos hocc] at hq
      cases hlook : lookupGroup st.2 (secretTagsHash s) with
      | some value =>
        rw [hlook] at hq
        simp only at hq
        rcases mem_setGroup _ _ _ q hq with hin | heq
        · exact hst q hin
        · rw [heq]
          exact List.sorted_insertionSort keyLe _
      | none =>
        rw [hlook] at hq
        simp only at hq
        rcases mem_setGroup _ _ _ q hq with hin | heq
        · exact hst q hin
        · rw [heq]
          exact List.sorted_singleton _
    · rw [if_neg hocc] at hq
      exact hst q hq

set_option maxRecDepth 16384 in
/-- C6: whenever the template generator succeeds, the emitted groups
are ordered by non-decreasing tag-set cardinality, the untagged group
(when present) comes first and is the only one without a heading
banner, tagged groups carry the centered banner of their tag names
joined by " & ", and every group's members are sorted ascending by
key; on the example (X untagged; Y, Z tagged t1) the untagged group
{X} is emitted first without a heading and then {Y, Z} with one. -/
theorem generateExampleEnv_group_order :
    (∀ (secrets : List SingleEnvironmentVariable) (gs : List RenderedGroup),
      generateExampleEnvRun secrets = Except.ok gs → GeneratedGroupsSpec gs) ∧
    (generateExampleEnvRun exTemplateSecrets = Except.ok exTemplateGroups ∧
      exTemplateGroups.map (fun g =>
        (g.secrets.map (fun s => s.key), g.heading.isSome,
          g.tags.map (fun t => t.name))) =
        [([("X").toList], false, []),
         ([("Y").toList, ("Z").toList], true, [("t1").toList])]) := by
  constructor
  · intro secrets gs h
    simp only [generateExampleEnvRun] at h
    have hf2 := renderGroups_forall2 _ _ h
    have hsorted : List.Sorted groupTagsLe
        (List.insertionSort groupTagsLe
          ((buildGroups (List.insertionSort tagCountGe secrets)).map Prod.snd)) :=
      List.sorted_insertionSort _ _
    have hmapeq : gs.map (fun r => r.tags) =
        (List.insertionSort groupTagsLe
          ((buildGroups (List.insertionSort tagCountGe secrets)).map Prod.snd)).map
          (fun g => g.tags) := forall2_tags_map hf2
    have hp1 : List.Pairwise
        (fun a b : RenderedGroup => a.tags.length ≤ b.tags.length) gs := by
      have hnat : List.Pairwise (fun a b : Nat => a ≤ b)
          ((List.insertionSort groupTagsLe
            ((buildGroups (List.insertionSort tagCountGe secrets)).map Prod.snd)).map
            (fun g => g.tags.length)) := by
        rw [List.pairwise_map]
        exact hsorted
      have hmapeq2 : gs.map (fun r => r.tags.length) =
          (List.insertionSort groupTagsLe
            ((buildGroups (List.insertionSort tagCountGe secrets)).map Prod.snd)).map
            (fun g => g.tags.length) := by
        have hcg := congrArg (List.map List.length) hmapeq
        simpa [List.map_map, Function.comp] using hcg
      rw [← hmapeq2] at hnat
      rw [List.pairwise_map] at hnat
      exact hnat
    refine ⟨hp1, ?_, ?_⟩
    · intro g hg
      obtain ⟨g2, hg2, hrel⟩ := forall2_mem_right hf2 g hg
      obtain ⟨ht, hs, hr, hh, hex⟩ := hrel
      refine ⟨by rw [ht]; exact hh, ?_, by rw [hs]; exact hr, ?_⟩
      · rw [hs]
        have hg2mem : g2 ∈ (buildGroups (List.insertionSort tagCountGe secrets)).map
            Prod.snd :=
          (List.perm_insertionSort groupTagsLe _).mem_iff.mp hg2
        obtain ⟨p, hpmem, hpeq⟩ := List.mem_map.mp hg2mem
        rw [← hpeq]
        exact buildGroups_sorted _ p hpmem
      · rw [ht]
        exact hex
    · intro g hg hgt g0 hg0
      cases gs with
      | nil => simp at hg0
      | cons ghead gtail =>
        have hg0eq : ghead = g0 := by simpa using hg0
        subst hg0eq
        rcases List.mem_cons.mp hg with hgh | hgtail
        · rw [← hgh]; exact hgt
        · have hle := (List.pairwise_cons.mp hp1).1 g hgtail
          rw [hgt] at hle
          simp only [List.length_nil, Nat.le_zero, List.length_eq_zero] at hle
          exact hle
  · constructor
    · decide
    · decide

set_option maxRecDepth 16384 in
/-- C6 witness: the example groups satisfy the general spec. -/
theorem generateExampleEnv_group_order_witness :
    generateExampleEnvRun exTemplateSecrets = Except.ok exTemplateGroups ∧
    GeneratedGroupsSpec exTemplateGroups :=
  ⟨by decide,
   generateExampleEnv_group_order.1 exTemplateSecrets exTemplateGroups (by decide)⟩
